import Mathlib

/-!
Shallow embedding of the `nec` crate (named elements collection).

The crate stores elements in an ordered `Vec<ElementBundle<Element>>` together with a
`HashMap` from names to positions.  Two strategies exist: the unique variant
(`HashMap<String, usize>`, type alias `UNEC`) and the multi variant
(`HashMap<String, Vec<usize>>`, alias `DNEC`).  Hash maps are embedded as association
lists with unique keys (`List (String × β)`); every map operation used by the crate
(insert, remove, get, values iteration) is key-based or pointwise over the values, so
the association-list image is faithful.  Rust computations that can panic (`unwrap`,
`Vec` indexing out of bounds) are embedded into `PanicOr`.
-/

/-- Result of a Rust computation that may panic (`unwrap` on `None`, out-of-bounds
`Vec` indexing).  `panicked` is the abort outcome. -/
inductive PanicOr (α : Type) where
  | panicked
  | ok (val : α)
deriving DecidableEq

/-- `HashMap::get` on the association-list image: value of the entry with key `k`. -/
def alLookup {β : Type} : List (String × β) → String → Option β
  | [], _ => none
  | (k', v) :: rest, k => if k' = k then some v else alLookup rest k

/-- `HashMap::contains_key`. -/
def alContains {β : Type} (m : List (String × β)) (k : String) : Bool :=
  (alLookup m k).isSome

/-- `HashMap::insert`: replaces the value of an existing entry in place, otherwise
adds a new entry. -/
def alInsert {β : Type} : List (String × β) → String → β → List (String × β)
  | [], k, v => [(k, v)]
  | (k', v') :: rest, k, v =>
    if k' = k then (k, v) :: rest else (k', v') :: alInsert rest k v

/-- `HashMap::remove`: drops the entry with key `k`. -/
def alErase {β : Type} : List (String × β) → String → List (String × β)
  | [], _ => []
  | (k', v') :: rest, k => if k' = k then rest else (k', v') :: alErase rest k

/-- `Adjustable for HashMap<String, usize>`: `fn add_entry` (src/adjustable.rs:27). -/
def add_entry_u (m : List (String × Nat)) (name : String) (index : Nat) :
    List (String × Nat) :=
  alInsert m name index

/-- `Adjustable for HashMap<String, usize>`: `fn delete_entry` (src/adjustable.rs:46);
the index argument is ignored and the whole entry is removed. -/
def delete_entry_u (m : List (String × Nat)) (name : String) (_index : Nat) :
    PanicOr (List (String × Nat)) :=
  .ok (alErase m name)

/-- `Adjustable for HashMap<String, usize>`: `fn replace_entry` (src/adjustable.rs:69). -/
def replace_entry_u (m : List (String × Nat)) (name : String) (index : Nat) :
    List (String × Nat) :=
  alInsert m name index

/-- `Adjustable for HashMap<String, Vec<usize>>`: `fn add_entry` (src/adjustable.rs:95):
`self.entry(name).or_insert(Vec::new()).push(index)`. -/
def add_entry_m (m : List (String × List Nat)) (name : String) (index : Nat) :
    List (String × List Nat) :=
  match alLookup m name with
  | some l => alInsert m name (l ++ [index])
  | none => alInsert m name [index]

/-- The renumbering applied by the multi `delete_entry`: `if *j > index { *j -= 1 }`. -/
def renumber (index j : Nat) : Nat :=
  if index < j then j - 1 else j

/-- `Adjustable for HashMap<String, Vec<usize>>`: `fn delete_entry` (src/adjustable.rs:152).
Steps, in source order: `get_mut(name).unwrap().retain(|&i| i != index)` (panics when
`name` is absent), then remove the key if its list became empty (a second
`get(name).unwrap()`), then decrement every stored value `> index` across all values. -/
def delete_entry_m (m : List (String × List Nat)) (name : String) (index : Nat) :
    PanicOr (List (String × List Nat)) :=
  match alLookup m name with
  | none => .panicked
  | some l =>
    let m1 := alInsert m name (l.filter (fun i => i != index))
    match alLookup m1 name with
    | none => .panicked
    | some l' =>
      let m2 := if l'.isEmpty then alErase m1 name else m1
      .ok (m2.map (fun kv => (kv.1, kv.2.map (renumber index))))

/-- `Adjustable for HashMap<String, Vec<usize>>`: `fn replace_entry`
(src/adjustable.rs:171): the body is empty (commented out). -/
def replace_entry_m (m : List (String × List Nat)) (_name : String) (_index : Nat) :
    List (String × List Nat) :=
  m

/-- The `Adjustable` trait (src/adjustable.rs:5), indexed by the `Indexes` value type
(`usize` or `Vec<usize>`). -/
class Adjustable (I : Type) where
  add_entry : List (String × I) → String → Nat → List (String × I)
  delete_entry : List (String × I) → String → Nat → PanicOr (List (String × I))
  replace_entry : List (String × I) → String → Nat → List (String × I)

instance : Adjustable Nat :=
  ⟨add_entry_u, delete_entry_u, replace_entry_u⟩

instance : Adjustable (List Nat) :=
  ⟨add_entry_m, delete_entry_m, replace_entry_m⟩

/-- The `Nameable` trait (src/nameable.rs): an element that self-reports its name. -/
class Nameable (E : Type) where
  get_name : E → String

/-- `ElementBundle<Element>` (src/nec.rs:47): the element plus its original name and
an optional alternate unique name (never set anywhere in the crate). -/
structure ElementBundle (Element : Type) where
  elem : Element
  name : String × Option String
deriving DecidableEq

/-- `NamedElementsCollection<Element, Indexes>` (src/nec.rs:63). -/
structure NamedElementsCollection (Element : Type) (I : Type) where
  list : List (ElementBundle Element)
  hmap : List (String × I)
deriving DecidableEq

/-- `type UNEC<Element>` (src/nec.rs:915): unique strategy, `Indexes = usize`. -/
abbrev UNEC (Element : Type) := NamedElementsCollection Element Nat

/-- `type DNEC<Element>` (src/nec.rs:935): multi strategy, `Indexes = Vec<usize>`. -/
abbrev DNEC (Element : Type) := NamedElementsCollection Element (List Nat)

variable {E I : Type}

/-- `fn new` (src/nec.rs:76). -/
def NamedElementsCollection.new : NamedElementsCollection E I :=
  { list := [], hmap := [] }

/-- `fn len` (src/nec.rs:174). -/
def NamedElementsCollection.len (c : NamedElementsCollection E I) : Nat :=
  c.list.length

/-- `fn contains_name` (src/nec.rs:100). -/
def NamedElementsCollection.contains_name (c : NamedElementsCollection E I)
    (name : String) : Bool :=
  alContains c.hmap name

/-- `fn get` (src/nec.rs:125): checked positional access. -/
def NamedElementsCollection.get (c : NamedElementsCollection E I) (index : Nat) :
    Option E :=
  match c.list[index]? with
  | some v => some v.elem
  | none => none

/-- `fn get_name` (src/nec.rs:410). -/
def NamedElementsCollection.get_name (c : NamedElementsCollection E I) (index : Nat) :
    Option String :=
  match c.list[index]? with
  | some v => some v.name.1
  | none => none

/-- `fn push` (src/nec.rs:285): self-naming push; records the index `list.len()` in the
hash map before appending the bundle. -/
def NamedElementsCollection.push [Nameable E] [Adjustable I]
    (c : NamedElementsCollection E I) (element : E) : NamedElementsCollection E I :=
  let name := Nameable.get_name element
  { list := c.list ++ [{ elem := element, name := (name, none) }],
    hmap := Adjustable.add_entry c.hmap name c.list.length }

/-- `fn _push_with_name` (src/nec.rs:320): appends the bundle, then records
`list.len() - 1` in the hash map. -/
def NamedElementsCollection.push_with_name_aux [Adjustable I]
    (c : NamedElementsCollection E I) (name : String) (element : E) :
    NamedElementsCollection E I :=
  let list' := c.list ++ [{ elem := element, name := (name, none) }]
  let index := list'.length - 1
  { list := list', hmap := Adjustable.add_entry c.hmap name index }

/-- `fn remove` (src/nec.rs:356).  In source order: `self.list.remove(index)` (panics
when out of bounds), then `self.list.get(index).unwrap().name.0.clone()` on the
already-shortened list (panics when `index` is now past the end), then the strategy's
entry deletion with that name. -/
def NamedElementsCollection.remove [Adjustable I] (c : NamedElementsCollection E I)
    (index : Nat) : PanicOr (ElementBundle E × NamedElementsCollection E I) :=
  if h : index < c.list.length then
    let e := c.list.get ⟨index, h⟩
    let list' := c.list.eraseIdx index
    match list'[index]? with
    | none => .panicked
    | some b =>
      match Adjustable.delete_entry c.hmap b.name.1 index with
      | .panicked => .panicked
      | .ok hmap' => .ok (e, { list := list', hmap := hmap' })
  else .panicked

/-- `fn push_with_name` for the unique variant (src/nec.rs:450): when the name is
already bound, overwrite the bundle at the bound position (`self.list[index] = …`
panics when the stored position is past the end) and refresh the map entry;
otherwise fall through to `_push_with_name`. -/
def NamedElementsCollection.push_with_name_u (c : UNEC E) (name : String)
    (element : E) : PanicOr (UNEC E) :=
  if alContains c.hmap name then
    match alLookup c.hmap name with
    | none => .panicked
    | some index =>
      if _h : index < c.list.length then
        .ok { list := c.list.set index { elem := element, name := (name, none) },
              hmap := replace_entry_u c.hmap name index }
      else .panicked
  else .ok (c.push_with_name_aux name element)

/-- `fn push_with_name` for the multi variant (src/nec.rs:502): always delegates to
`_push_with_name`. -/
def NamedElementsCollection.push_with_name_d (c : DNEC E) (name : String)
    (element : E) : DNEC E :=
  c.push_with_name_aux name element

/-- Dereferences every stored position into the bundle list, as the multi
`get_by_name` does: `indexes.iter().map(|i| self.list.get(*i).unwrap())`; `none`
is the panic of `unwrap` on a stale position. -/
def collectIdx (list : List (ElementBundle E)) : List Nat →
    Option (List (ElementBundle E))
  | [] => some []
  | i :: rest =>
    match list[i]? with
    | none => none
    | some b =>
      match collectIdx list rest with
      | none => none
      | some bs => some (b :: bs)

/-- `fn get_by_name` for the multi variant (src/nec.rs:534): `None` when the name is
unknown, otherwise dereference every stored position (`self.list.get(*i).unwrap()`,
which panics on a stale position). -/
def NamedElementsCollection.get_by_name (c : DNEC E) (name : String) :
    PanicOr (Option (List E)) :=
  if alContains c.hmap name then
    match alLookup c.hmap name with
    | none => .panicked
    | some indexes =>
      match collectIdx c.list indexes with
      | none => .panicked
      | some bundles => .ok (some (bundles.map (fun b => b.elem)))
  else .ok none

/-- `impl Index<usize>` (src/nec.rs:580): `self.get(index).unwrap()`. -/
def NamedElementsCollection.index_usize (c : NamedElementsCollection E I)
    (index : Nat) : PanicOr E :=
  match c.get index with
  | none => .panicked
  | some e => .ok e

/-- `impl Index<&str>` for the unique variant (src/nec.rs:644):
`*self.hmap.get(name).unwrap()` then `self.list.get(index).unwrap()`. -/
def NamedElementsCollection.index_str (c : UNEC E) (name : String) : PanicOr E :=
  match alLookup c.hmap name with
  | none => .panicked
  | some index =>
    match c.list[index]? with
    | none => .panicked
    | some b => .ok b.elem

/-- `impl From<Vec<(String, Element)>>` (src/nec.rs:838): the fold of
`_push_with_name` over the source pairs, starting from the empty collection. -/
def NamedElementsCollection.from_pairs [Adjustable I] (source : List (String × E)) :
    NamedElementsCollection E I :=
  source.foldl (fun c e => c.push_with_name_aux e.1 e.2) NamedElementsCollection.new

/-- Modelled from the spec: section 4.4 defines bulk construction as "the fold of
repeated `push`/`push_with_name` calls" with duplicate handling "identical whether
elements arrive one at a time or as a batch".  This is that fold of the public
`push_with_name` for the unique variant, used to compare against `from_pairs`. -/
def pushAllU : UNEC E → List (String × E) → PanicOr (UNEC E)
  | c, [] => .ok c
  | c, (n, e) :: rest =>
    match c.push_with_name_u n e with
    | .panicked => .panicked
    | .ok c' => pushAllU c' rest

/-- Pushing a list of elements one by one under a single name (multi variant). -/
def NamedElementsCollection.push_many_d (c : DNEC E) (name : String) (es : List E) :
    DNEC E :=
  es.foldl (fun c e => c.push_with_name_d name e) c

/-- An operation script against the unique variant, used to express claims about
sequences of pushes and removes. -/
inductive UOp (E : Type) where
  | push (name : String) (e : E)
  | rem (i : Nat)

/-- Runs a script of pushes and removes on a unique-variant collection, propagating
panics. -/
def runU : UNEC E → List (UOp E) → PanicOr (UNEC E)
  | c, [] => .ok c
  | c, UOp.push n e :: rest =>
    match c.push_with_name_u n e with
    | .panicked => .panicked
    | .ok c' => runU c' rest
  | c, UOp.rem i :: rest =>
    match c.remove i with
    | .panicked => .panicked
    | .ok (_, c') => runU c' rest

/-- The name-index position multiset of a unique-variant map. -/
def positionsU (m : List (String × Nat)) : List Nat :=
  m.map Prod.snd

/-- The positions `ps` cover exactly the range `{0, …, n-1}` as a set. -/
def coversRange (ps : List Nat) (n : Nat) : Prop :=
  (∀ p ∈ ps, p < n) ∧ ∀ p ∈ List.range n, p ∈ ps

instance (ps : List Nat) (n : Nat) : Decidable (coversRange ps n) := by
  unfold coversRange
  infer_instance

instance : Nameable (String × Nat) :=
  ⟨Prod.fst⟩

/-- C10: for every multi-strategy name index, every name and every index value,
`replace_entry` leaves the map unchanged: the multi variant exposes no in-place
replacement of an existing binding. -/
theorem replace_entry_m_noop (m : List (String × List Nat)) (name : String)
    (index : Nat) : replace_entry_m m name index = m :=
  rfl

/-- C2 evaluation at the failing input: on the unique collection holding bundles
named "A" (position 0) and "B" (position 1), `remove 0` returns the "A" bundle but
updates the name index with the name read at position 0 of the already-shortened
list — the successor "B" — so the index keeps the stale entry for the removed name
"A" and loses "B"'s. -/
theorem remove_uses_successor_name_bug :
    NamedElementsCollection.remove
        (⟨[⟨1, ("A", none)⟩, ⟨2, ("B", none)⟩], [("A", 0), ("B", 1)]⟩ : UNEC Nat) 0 =
      .ok (⟨1, ("A", none)⟩, ⟨[⟨2, ("B", none)⟩], [("A", 0)]⟩) := by
  decide

/-- C3 evaluation at the failing input: on the unique variant, the self-naming
`push` of a second element reporting the already-bound name "A" does not replace in
place — the list grows to length 2, the first element stays at position 0, and the
index is rebound to the new position 1. -/
theorem unique_push_appends_bug :
    ((NamedElementsCollection.new (E := String × Nat) (I := Nat)).push
        ("A", 1) |>.push ("A", 2)).len = 2 ∧
    ((NamedElementsCollection.new (E := String × Nat) (I := Nat)).push
        ("A", 1) |>.push ("A", 2)).hmap = [("A", 1)] ∧
    ((NamedElementsCollection.new (E := String × Nat) (I := Nat)).push
        ("A", 1) |>.push ("A", 2)).get 0 = some ("A", 1) ∧
    ((NamedElementsCollection.new (E := String × Nat) (I := Nat)).push
        ("A", 1) |>.push ("A", 2)).get 1 = some ("A", 2) := by
  decide

/-- C4 evaluation at the failing input: pushing "A", "B", "C" on the unique variant
and removing position 0 leaves a 2-element collection whose name index holds the
position set {0, 2}, which is not {0, 1}: the size-agreement invariant fails. -/
theorem size_agreement_invariant_fails_bug :
    ∃ c' : UNEC Nat,
      runU NamedElementsCollection.new
          [UOp.push "A" 1, UOp.push "B" 2, UOp.push "C" 3, UOp.rem 0] = .ok c' ∧
      c'.len = 2 ∧ positionsU c'.hmap = [0, 2] ∧
      ¬ coversRange (positionsU c'.hmap) c'.len := by
  refine ⟨⟨[⟨2, ("B", none)⟩, ⟨3, ("C", none)⟩], [("A", 0), ("C", 2)]⟩,
    by decide, by decide, by decide, by decide⟩

/-- C5 evaluation at the failing input: building the unique variant from the pair
vector [("A", 1), ("A", 2)] via the bulk conversion yields a 2-element collection
(`_push_with_name` appends), while the incremental fold of the public
`push_with_name` yields the single-element collection holding only the second
element. -/
theorem from_pairs_not_incremental_bug :
    (NamedElementsCollection.from_pairs [("A", 1), ("A", 2)] : UNEC Nat).len = 2 ∧
    (NamedElementsCollection.from_pairs [("A", 1), ("A", 2)] : UNEC Nat).hmap =
      [("A", 1)] ∧
    pushAllU NamedElementsCollection.new [("A", (1 : Nat)), ("A", 2)] =
      .ok ⟨[⟨2, ("A", none)⟩], [("A", 0)]⟩ := by
  decide

/-- C7: on every non-empty collection (either variant), `remove` at the highest valid
position `len - 1` panics: after the bundle is physically removed the code looks up
the name at that same position in the now-shortened list and unwraps the absent
result. -/
theorem remove_last_position_panics [Adjustable I] (c : NamedElementsCollection E I)
    (h : c.list ≠ []) : c.remove (c.len - 1) = .panicked := by
  have hlen : 0 < c.list.length := List.length_pos.mpr h
  have hlt : c.len - 1 < c.list.length := by
    unfold NamedElementsCollection.len
    omega
  have hnone : (c.list.eraseIdx (c.len - 1))[c.len - 1]? = none := by
    apply List.getElem?_eq_none
    rw [List.length_eraseIdx]
    simp only [hlt, if_pos]
    unfold NamedElementsCollection.len
    omega
  unfold NamedElementsCollection.remove
  rw [dif_pos hlt]
  simp only [hnone]

/-- Witness for C7 at a concrete input: a one-element unique collection, whose
single element therefore can never be removed without a panic. -/
theorem remove_last_position_panics_witness :
    (⟨[⟨5, ("A", none)⟩], [("A", 0)]⟩ : UNEC Nat).list ≠ [] ∧
    (⟨[⟨5, ("A", none)⟩], [("A", 0)]⟩ : UNEC Nat).remove
      ((⟨[⟨5, ("A", none)⟩], [("A", 0)]⟩ : UNEC Nat).len - 1) = .panicked :=
  ⟨by decide, remove_last_position_panics _ (by decide)⟩

/-- C8: the checked accessor `get` returns `none` (and does not abort) whenever the
index is at least `len`, the multi variant's checked `get_by_name` returns an absent
result whenever the name is unknown, and in particular both are absent on the empty
collection. -/
theorem checked_accessors_absent (c : NamedElementsCollection E I) (i : Nat)
    (d : DNEC E) (name : String) (hi : c.len ≤ i)
    (hd : alContains d.hmap name = false) :
    c.get i = none ∧ d.get_by_name name = .ok none ∧
    (NamedElementsCollection.new (E := E) (I := I)).get i = none ∧
    (NamedElementsCollection.new (E := E) (I := List Nat)).get_by_name name =
      .ok none := by
  refine ⟨?_, ?_, ?_, ?_⟩
  · unfold NamedElementsCollection.get
    rw [List.getElem?_eq_none hi]
  · unfold NamedElementsCollection.get_by_name
    rw [hd]
    rfl
  · rfl
  · rfl

/-- Witness for C8 at concrete inputs: the empty collections, index 0 and an unknown
name. -/
theorem checked_accessors_absent_witness :
    ((NamedElementsCollection.new : UNEC Nat).len ≤ 0 ∧
      alContains (NamedElementsCollection.new : DNEC Nat).hmap "X" = false) ∧
    (NamedElementsCollection.new : UNEC Nat).get 0 = none ∧
    (NamedElementsCollection.new : DNEC Nat).get_by_name "X" = .ok none ∧
    (NamedElementsCollection.new (E := Nat) (I := Nat)).get 0 = none ∧
    (NamedElementsCollection.new (E := Nat) (I := List Nat)).get_by_name "X" =
      .ok none :=
  ⟨⟨by decide, by decide⟩,
    checked_accessors_absent NamedElementsCollection.new 0 NamedElementsCollection.new
      "X" (by decide) (by decide)⟩

/-- C9: the positional indexing operator panics whenever the index is at least
`len`, the unique variant's name-indexing operator panics whenever the name is
unknown, while the checked accessors (`get`, and `get_by_name` on the multi
variant) return an absent value in the same situations. -/
theorem index_operators_panic_checked_absent (c : NamedElementsCollection E I)
    (i : Nat) (u : UNEC E) (d : DNEC E) (name : String) (hi : c.len ≤ i)
    (hu : alContains u.hmap name = false) (hd : alContains d.hmap name = false) :
    c.index_usize i = .panicked ∧ c.get i = none ∧
    u.index_str name = .panicked ∧ d.get_by_name name = .ok none := by
  have hget : c.get i = none := by
    unfold NamedElementsCollection.get
    rw [List.getElem?_eq_none hi]
  have hlook : alLookup u.hmap name = none := by
    unfold alContains at hu
    exact Option.not_isSome_iff_eq_none.mp (by simp [hu])
  refine ⟨?_, hget, ?_, ?_⟩
  · unfold NamedElementsCollection.index_usize
    rw [hget]
  · unfold NamedElementsCollection.index_str
    rw [hlook]
  · unfold NamedElementsCollection.get_by_name
    rw [hd]
    rfl

/-- Witness for C9 at concrete inputs: a one-element unique collection indexed at
position 1 and at the unknown name "X", and the empty multi collection. -/
theorem index_operators_panic_checked_absent_witness :
    ((⟨[⟨7, ("A", none)⟩], [("A", 0)]⟩ : UNEC Nat).len ≤ 1 ∧
      alContains (⟨[⟨7, ("A", none)⟩], [("A", 0)]⟩ : UNEC Nat).hmap "X" = false ∧
      alContains (NamedElementsCollection.new : DNEC Nat).hmap "X" = false) ∧
    (⟨[⟨7, ("A", none)⟩], [("A", 0)]⟩ : UNEC Nat).index_usize 1 = .panicked ∧
    (⟨[⟨7, ("A", none)⟩], [("A", 0)]⟩ : UNEC Nat).get 1 = none ∧
    (⟨[⟨7, ("A", none)⟩], [("A", 0)]⟩ : UNEC Nat).index_str "X" = .panicked ∧
    (NamedElementsCollection.new : DNEC Nat).get_by_name "X" = .ok none :=
  ⟨⟨by decide, by decide, by decide⟩,
    index_operators_panic_checked_absent _ 1 _ NamedElementsCollection.new "X"
      (by decide) (by decide) (by decide)⟩

theorem alLookup_alInsert {β : Type} (m : List (String × β)) (k k' : String) (v : β) :
    alLookup (alInsert m k v) k' = if k = k' then some v else alLookup m k' := by
  induction m with
  | nil => simp [alInsert, alLookup]
  | cons kv rest ih =>
    obtain ⟨k₀, v₀⟩ := kv
    by_cases h0 : k₀ = k
    · subst h0
      by_cases h1 : k₀ = k' <;> simp [alInsert, alLookup, h1]
    · by_cases h1 : k₀ = k'
      · have h2 : k ≠ k' := by
          rw [← h1]
          exact Ne.symm h0
        subst h1
        simp [alInsert, alLookup, h0, h2]
      · simp [alInsert, alLookup, h0, h1, ih]

theorem alLookup_eq_none_of_not_mem_keys {β : Type} (m : List (String × β))
    (k : String) (h : k ∉ m.map Prod.fst) : alLookup m k = none := by
  induction m with
  | nil => rfl
  | cons kv rest ih =>
    obtain ⟨k₀, v₀⟩ := kv
    simp only [List.map_cons, List.mem_cons, not_or] at h
    have h1 : k₀ ≠ k := Ne.symm h.1
    simp [alLookup, h1, ih h.2]

theorem alLookup_alErase_ne {β : Type} (m : List (String × β)) (k k' : String)
    (h : k' ≠ k) : alLookup (alErase m k) k' = alLookup m k' := by
  induction m with
  | nil => rfl
  | cons kv rest ih =>
    obtain ⟨k₀, v₀⟩ := kv
    by_cases h0 : k₀ = k
    · subst h0
      simp [alErase, alLookup, Ne.symm h]
    · by_cases h1 : k₀ = k'
      · subst h1
        simp [alErase, alLookup, h0, h]
      · simp [alErase, alLookup, h0, h1, ih]

theorem alLookup_alErase_self {β : Type} (m : List (String × β)) (k : String)
    (h : (m.map Prod.fst).Nodup) : alLookup (alErase m k) k = none := by
  induction m with
  | nil => rfl
  | cons kv rest ih =>
    obtain ⟨k₀, v₀⟩ := kv
    simp only [List.map_cons, List.nodup_cons] at h
    by_cases h0 : k₀ = k
    · subst h0
      simp only [alErase, if_pos rfl]
      exact alLookup_eq_none_of_not_mem_keys rest k₀ h.1
    · simp [alErase, alLookup, h0, ih h.2]

theorem keys_alInsert_of_mem {β : Type} (m : List (String × β)) (k : String) (v : β)
    (h : (alLookup m k).isSome) :
    (alInsert m k v).map Prod.fst = m.map Prod.fst := by
  induction m with
  | nil => simp [alLookup] at h
  | cons kv rest ih =>
    obtain ⟨k₀, v₀⟩ := kv
    by_cases h0 : k₀ = k
    · subst h0
      simp [alInsert]
    · simp only [alLookup, if_neg h0] at h
      simp [alInsert, h0, ih h]

theorem alLookup_map_values {β γ : Type} (m : List (String × β)) (f : β → γ)
    (k : String) :
    alLookup (m.map (fun kv => (kv.1, f kv.2))) k = (alLookup m k).map f := by
  induction m with
  | nil => rfl
  | cons kv rest ih =>
    obtain ⟨k₀, v₀⟩ := kv
    by_cases h : k₀ = k <;> simp [alLookup, h, ih]

/-- C1: on a multi-strategy name index whose entry for `n` contains the position
`p`, `delete_entry n p` removes the exact value `p` from `n`'s list, deletes the
entry for `n` entirely when its list becomes empty, and decrements every remaining
stored position strictly greater than `p` across the lists of all names; in
particular, from "A" bound to [0, 2, 3, 5] and "B" bound to [1, 4], deleting
("A", 0) yields "A" bound to [1, 2, 4] and "B" bound to [0, 3]. -/
theorem delete_entry_m_removes_and_renumbers (m : List (String × List Nat))
    (n : String) (p : Nat) (l : List Nat) (hnd : (m.map Prod.fst).Nodup)
    (hl : alLookup m n = some l) (_hp : p ∈ l) :
    (∃ m', delete_entry_m m n p = .ok m' ∧
      alLookup m' n =
        (if (l.filter (fun i => i != p)).isEmpty then none
         else some ((l.filter (fun i => i != p)).map (renumber p))) ∧
      ∀ n', n' ≠ n →
        alLookup m' n' = (alLookup m n').map (fun v => v.map (renumber p))) ∧
    delete_entry_m [("A", [0, 2, 3, 5]), ("B", [1, 4])] "A" 0 =
      .ok [("A", [1, 2, 4]), ("B", [0, 3])] := by
  have hm1 : alLookup (alInsert m n (l.filter (fun i => i != p))) n =
      some (l.filter (fun i => i != p)) := by
    rw [alLookup_alInsert]
    simp
  have hkeys : (alInsert m n (l.filter (fun i => i != p))).map Prod.fst =
      m.map Prod.fst :=
    keys_alInsert_of_mem m n _ (by simp [hl])
  have hdef : delete_entry_m m n p =
      .ok ((if (l.filter (fun i => i != p)).isEmpty
            then alErase (alInsert m n (l.filter (fun i => i != p))) n
            else alInsert m n (l.filter (fun i => i != p))).map
        (fun kv => (kv.1, kv.2.map (renumber p)))) := by
    unfold delete_entry_m
    rw [hl]
    simp only [hm1]
  refine ⟨⟨_, hdef, ?_, ?_⟩, by decide⟩
  · rw [alLookup_map_values]
    by_cases he : (l.filter (fun i => i != p)).isEmpty
    · rw [if_pos he, if_pos he]
      rw [alLookup_alErase_self _ n (hkeys ▸ hnd)]
      rfl
    · rw [if_neg he, if_neg he, hm1]
      rfl
  · intro n' hn'
    rw [alLookup_map_values]
    by_cases he : (l.filter (fun i => i != p)).isEmpty
    · rw [if_pos he, alLookup_alErase_ne _ _ _ hn', alLookup_alInsert,
        if_neg (fun h2 => hn' h2.symm)]
    · rw [if_neg he, alLookup_alInsert, if_neg (fun h2 => hn' h2.symm)]

/-- Witness for C1 at the concrete input from the claim: "A" bound to [0, 2, 3, 5]
and "B" bound to [1, 4], deleting ("A", 0). -/
theorem delete_entry_m_removes_and_renumbers_witness :
    (0 ∈ [0, 2, 3, 5]) ∧
    delete_entry_m [("A", [0, 2, 3, 5]), ("B", [1, 4])] "A" 0 =
      .ok [("A", [1, 2, 4]), ("B", [0, 3])] :=
  ⟨by decide,
    (delete_entry_m_removes_and_renumbers [("A", [0, 2, 3, 5]), ("B", [1, 4])] "A" 0
      [0, 2, 3, 5] (by decide) (by decide) (by decide)).2⟩

theorem push_with_name_aux_hmap [Adjustable I] (c : NamedElementsCollection E I)
    (name : String) (e : E) :
    (c.push_with_name_aux name e).hmap =
      Adjustable.add_entry c.hmap name c.list.length := by
  unfold NamedElementsCollection.push_with_name_aux
  simp

theorem alLookup_add_entry_m_self (m : List (String × List Nat)) (name : String)
    (i : Nat) :
    alLookup (add_entry_m m name i) name =
      some ((alLookup m name).getD [] ++ [i]) := by
  unfold add_entry_m
  cases h : alLookup m name <;> simp [alLookup_alInsert, h]

theorem push_many_d_spec (name : String) (es : List E) :
    ∀ (c : DNEC E) (l : List Nat), alLookup c.hmap name = some l →
      (c.push_many_d name es).list =
        c.list ++ es.map (fun e => { elem := e, name := (name, none) }) ∧
      alLookup (c.push_many_d name es).hmap name =
        some (l ++ List.range' c.list.length es.length) := by
  induction es with
  | nil =>
    intro c l hl
    simp [NamedElementsCollection.push_many_d, hl]
  | cons e rest ih =>
    intro c l hl
    have hstep : c.push_many_d name (e :: rest) =
        (c.push_with_name_d name e).push_many_d name rest := rfl
    have hlist1 : (c.push_with_name_d name e).list =
        c.list ++ [{ elem := e, name := (name, none) }] := rfl
    have hmap1 : alLookup (c.push_with_name_d name e).hmap name =
        some (l ++ [c.list.length]) := by
      show alLookup (c.push_with_name_aux name e).hmap name = _
      rw [push_with_name_aux_hmap]
      show alLookup (add_entry_m c.hmap name c.list.length) name = _
      rw [alLookup_add_entry_m_self, hl]
      rfl
    obtain ⟨ihl, ihm⟩ := ih (c.push_with_name_d name e) (l ++ [c.list.length]) hmap1
    constructor
    · rw [hstep, ihl, hlist1]
      simp
    · rw [hstep, ihm, hlist1]
      simp [List.range', List.length_append, List.append_assoc]

theorem collectIdx_append (post : List (ElementBundle E)) :
    ∀ pre : List (ElementBundle E),
      collectIdx (pre ++ post) (List.range' pre.length post.length) = some post := by
  induction post with
  | nil =>
    intro pre
    rfl
  | cons x xs ih =>
    intro pre
    have h1 : (pre ++ x :: xs)[pre.length]? = some x := by
      rw [List.getElem?_append_right (Nat.le_refl _)]
      simp
    have h2 : collectIdx (pre ++ x :: xs) (List.range' (pre.length + 1) xs.length) =
        some xs := by
      have h3 := ih (pre ++ [x])
      rw [List.append_assoc] at h3
      simpa using h3
    have hr : List.range' pre.length (x :: xs).length =
        pre.length :: List.range' (pre.length + 1) xs.length := by
      simp [List.range']
    rw [hr]
    simp [collectIdx, h1, h2]

theorem map_elem_bundle (es : List E) (name : String) :
    (es.map (fun e => ({ elem := e, name := (name, none) } : ElementBundle E))).map
      (fun b => b.elem) = es := by
  induction es with
  | nil => rfl
  | cons e rest ih => simp [ih]

/-- C6: on the multi variant, pushing `es` (k elements, no intervening removals)
under a name the collection does not yet know makes `get_by_name` return exactly
those k elements in push order; and `get_by_name` of a name never pushed returns an
absent result. -/
theorem multi_push_same_name_get_by_name (c : DNEC E) (name : String) (es : List E)
    (h : alContains c.hmap name = false) :
    c.get_by_name name = .ok none ∧
    (c.push_many_d name es).get_by_name name =
      (if es.isEmpty then .ok none else .ok (some es)) := by
  have hnone : alLookup c.hmap name = none := by
    unfold alContains at h
    exact Option.not_isSome_iff_eq_none.mp (by simp [h])
  refine ⟨?_, ?_⟩
  · unfold NamedElementsCollection.get_by_name
    rw [h]
    rfl
  · cases es with
    | nil =>
      show c.get_by_name name = .ok none
      unfold NamedElementsCollection.get_by_name
      rw [h]
      rfl
    | cons e rest =>
      have hmap1 : alLookup (c.push_with_name_d name e).hmap name =
          some ([] ++ [c.list.length]) := by
        show alLookup (c.push_with_name_aux name e).hmap name = _
        rw [push_with_name_aux_hmap]
        show alLookup (add_entry_m c.hmap name c.list.length) name = _
        rw [alLookup_add_entry_m_self, hnone]
        rfl
      have hstep : c.push_many_d name (e :: rest) =
          (c.push_with_name_d name e).push_many_d name rest := rfl
      obtain ⟨hlist, hmapf⟩ := push_many_d_spec name rest (c.push_with_name_d name e)
        ([] ++ [c.list.length]) hmap1
      have hlist1 : (c.push_with_name_d name e).list =
          c.list ++ [{ elem := e, name := (name, none) }] := rfl
      have hlistf : (c.push_many_d name (e :: rest)).list =
          c.list ++ (e :: rest).map (fun e => { elem := e, name := (name, none) }) := by
        rw [hstep, hlist, hlist1]
        simp
      have hlookf : alLookup (c.push_many_d name (e :: rest)).hmap name =
          some (List.range' c.list.length (e :: rest).length) := by
        rw [hstep, hmapf, hlist1]
        simp [List.range', List.length_append]
      have hcont : alContains (c.push_many_d name (e :: rest)).hmap name = true := by
        unfold alContains
        rw [hlookf]
        rfl
      have hcoll : collectIdx (c.push_many_d name (e :: rest)).list
          (List.range' c.list.length (e :: rest).length) =
          some ((e :: rest).map (fun e => { elem := e, name := (name, none) })) := by
        rw [hlistf]
        have h4 := collectIdx_append ((e :: rest).map
          (fun e => ({ elem := e, name := (name, none) } : ElementBundle E))) c.list
        simpa using h4
      unfold NamedElementsCollection.get_by_name
      simp only [hcont, hlookf, hcoll, if_true, List.isEmpty_cons]
      rw [map_elem_bundle]
      rfl

/-- Witness for C6 at a concrete input: two pushes of the name "H" on the empty
multi collection. -/
theorem multi_push_same_name_get_by_name_witness :
    alContains (NamedElementsCollection.new (E := Nat) (I := List Nat)).hmap "H" =
      false ∧
    ((NamedElementsCollection.new (E := Nat) (I := List Nat)).push_many_d "H"
        [1, 2]).get_by_name "H" =
      (if ([1, 2] : List Nat).isEmpty then .ok none else .ok (some [1, 2])) :=
  ⟨by decide,
    (multi_push_same_name_get_by_name NamedElementsCollection.new "H" [1, 2]
      (by decide)).2⟩
